import Mathlib

/-!
Shallow embedding of the EVEOai video clipper core (src/videoClipper.py and
src/videoClipperv1.py): the Audio Intensity Analyzer (`get_audio_intensity`)
and the Window Selector (the selection loop of `process_video`).

Modelling conventions:
* an audio sample stream is a `List Int` (signed integer amplitudes);
* the 100 ms chunking of `get_audio_intensity` is modelled at sample
  granularity: the parameter `C` is the number of samples spanning one
  100 ms chunk, and `chunks C s` is the list of slices `s[k*C : k*C+C]`
  produced by python's `range(0, len(s), C)` loop, i.e. `ceil(|s|/C)`
  slices for `C > 0`;
* floating point is abstracted by exact arithmetic: sample casts and the
  mean of squares are computed in `ℚ`, the square root in `ℝ`.  Under this
  abstraction a mean of squares is never negative and a square root of a
  guarded nonnegative mean is never NaN, so the two defensive guards of the
  source are modelled literally but can never fire (`rmsNaN` is the isnan
  test on the exact square root of a nonnegative rational, which is always
  false);
* the Window Selector is modelled as a pure function from the intensity
  sequence (a `List ℚ`, since only ordered-field structure of the
  intensities is used), the threshold and the clip duration to the list of
  emitted `(start_time, duration)` pairs, both in whole seconds (`Nat`),
  exactly as `start_time` steps in the source.

The `v1` definitions are the independent translation of
src/videoClipperv1.py, whose analyzer and selection loop are textually
identical to those of src/videoClipper.py.
-/

namespace EVEOai

/-- Slices `s[k*C : k*C+C]` for `k*C = 0, C, 2*C, ...` below `|s|`: the 100 ms
chunks of the sample stream, `ceil(|s|/C)` of them for `C > 0` (`(|s|+C-1)/C`
in truncated `Nat` division), the last one possibly shorter. -/
def chunks (C : Nat) (s : List Int) : List (List Int) :=
  (List.range ((s.length + C - 1) / C)).map (fun k => (s.drop (k * C)).take C)

/-- Mean of the squared samples of one chunk, in exact arithmetic
(`np.mean(samples.astype(np.float32) ** 2)`).  Division by zero in `ℚ`
yields `0`, but the empty chunk is skipped before this is ever used. -/
def meanSq (c : List Int) : ℚ :=
  ((c.map fun (x : Int) => (x : ℚ) ^ 2).sum) / (c.length : ℚ)

/-- Test `np.isnan(np.sqrt(m))` on a mean `m` that already passed the
`m < 0` guard: the exact square root of a nonnegative rational is a real
number, never NaN, so in the exact-arithmetic model this test is constantly
false.  It is kept so the control flow of the source loop is complete. -/
def rmsNaN (m : ℚ) : Bool := false

/-- Loop body of `get_audio_intensity` over the chunk list: skip an empty
chunk, skip a chunk with negative mean of squares, skip a NaN RMS, and
otherwise append the RMS `sqrt(meanSq c)` to the output. -/
noncomputable def intensitiesOfChunks : List (List Int) → List ℝ
  | [] => []
  | c :: cs =>
      if c.length = 0 then intensitiesOfChunks cs
      else if meanSq c < 0 then intensitiesOfChunks cs
      else if rmsNaN (meanSq c) then intensitiesOfChunks cs
      else Real.sqrt (meanSq c) :: intensitiesOfChunks cs

/-- Audio Intensity Analyzer of src/videoClipper.py: chunk the stream into
100 ms slices and collect the RMS of every chunk that passes the guards. -/
noncomputable def get_audio_intensity (C : Nat) (s : List Int) : List ℝ :=
  intensitiesOfChunks (chunks C s)

/-- Per-chunk outcome of the analyzer loop, as an `Option`: `none` when the
chunk is skipped (empty, negative mean of squares, or NaN RMS), `some rms`
when its RMS is appended. -/
noncomputable def chunkIntensity (c : List Int) : Option ℝ :=
  if c.length = 0 then none
  else if meanSq c < 0 then none
  else if rmsNaN (meanSq c) then none
  else some (Real.sqrt (meanSq c))

/-- Number of iterations of python's `range(0, n, step)` loop for `step > 0`:
`ceil(n/step)` groups of the intensity sequence. -/
def numGroups (n step : Nat) : Nat := (n + step - 1) / step

/-- Slice `ints[k*step : k*step + step]`: the intensity entries of group `k`
(`step = clip_duration * 10` entries per group, the last group possibly
fewer). -/
def groupSlice (ints : List ℚ) (k step : Nat) : List ℚ :=
  (ints.drop (k * step)).take step

/-- Arithmetic mean `np.mean` of one group's entries, in exact arithmetic. -/
def groupAvg (g : List ℚ) : ℚ := g.sum / (g.length : ℚ)

/-- Window Selector of src/videoClipper.py (the loop of `process_video`):
for each group `k` of `clip_duration * 10` consecutive intensity entries,
emit the segment `(k * clip_duration, clip_duration)` exactly when the
group's average exceeds the threshold; `start_time` advances by
`clip_duration` per group whether or not the group is selected. -/
def select (ints : List ℚ) (t : ℚ) (d : Nat) : List (Nat × Nat) :=
  (List.range (numGroups ints.length (d * 10))).filterMap fun k =>
    if t < groupAvg (groupSlice ints k (d * 10)) then some (k * d, d) else none

/-- Mean of the squared samples of one chunk, translated from
src/videoClipperv1.py. -/
def meanSq_v1 (c : List Int) : ℚ :=
  ((c.map fun (x : Int) => (x : ℚ) ^ 2).sum) / (c.length : ℚ)

/-- NaN test of the v1 analyzer, as in `rmsNaN`. -/
def rmsNaN_v1 (m : ℚ) : Bool := false

/-- Loop body of the v1 analyzer over its chunk list. -/
noncomputable def intensitiesOfChunks_v1 : List (List Int) → List ℝ
  | [] => []
  | c :: cs =>
      if c.length = 0 then intensitiesOfChunks_v1 cs
      else if meanSq_v1 c < 0 then intensitiesOfChunks_v1 cs
      else if rmsNaN_v1 (meanSq_v1 c) then intensitiesOfChunks_v1 cs
      else Real.sqrt (meanSq_v1 c) :: intensitiesOfChunks_v1 cs

/-- Audio Intensity Analyzer of src/videoClipperv1.py. -/
noncomputable def get_audio_intensity_v1 (C : Nat) (s : List Int) : List ℝ :=
  intensitiesOfChunks_v1
    ((List.range ((s.length + C - 1) / C)).map (fun k => (s.drop (k * C)).take C))

/-- Window Selector of src/videoClipperv1.py (the loop of its
`process_video`). -/
def select_v1 (ints : List ℚ) (t : ℚ) (d : Nat) : List (Nat × Nat) :=
  (List.range ((ints.length + d * 10 - 1) / (d * 10))).filterMap fun k =>
    if t < (groupSlice ints k (d * 10)).sum / ((groupSlice ints k (d * 10)).length : ℚ)
    then some (k * d, d) else none

/-! ### Helper lemmas about the group and chunk bookkeeping -/

lemma lt_numGroups_iff {n step k : Nat} (h : 0 < step) :
    k < numGroups n step ↔ k * step < n := by
  unfold numGroups
  constructor
  · intro hk
    have h1 := (Nat.le_div_iff_mul_le h).mp hk
    rw [Nat.succ_mul] at h1
    omega
  · intro hk
    have h1 : Nat.succ k * step ≤ n + step - 1 := by
      rw [Nat.succ_mul]
      omega
    exact (Nat.le_div_iff_mul_le h).mpr h1

lemma groupSlice_length (ints : List ℚ) (k step : Nat) :
    (groupSlice ints k step).length = min step (ints.length - k * step) := by
  simp [groupSlice]

lemma mem_select_iff {ints : List ℚ} {t : ℚ} {d : Nat} {p : Nat × Nat} :
    p ∈ select ints t d ↔
      ∃ k, k < numGroups ints.length (d * 10) ∧
        t < groupAvg (groupSlice ints k (d * 10)) ∧ p = (k * d, d) := by
  unfold select
  simp only [List.mem_filterMap, List.mem_range]
  constructor
  · rintro ⟨k, hk, hf⟩
    by_cases hc : t < groupAvg (groupSlice ints k (d * 10))
    · rw [if_pos hc] at hf
      exact ⟨k, hk, hc, (Option.some.inj hf).symm⟩
    · rw [if_neg hc] at hf
      cases hf
  · rintro ⟨k, hk, hc, rfl⟩
    exact ⟨k, hk, by rw [if_pos hc]⟩

/-! ### Window Selector claims -/

/-- C1: for every intensity sequence, threshold `t` and positive
`clip_duration` `d`, the Selector emits the segment `(k*d, d)` for group `k`
(the entries at indices `[k*d*10, (k+1)*d*10)`) exactly when that group
exists and the arithmetic mean of its entries is strictly greater than `t`;
in particular a group whose mean equals `t` exactly is not selected. -/
theorem select_emits_iff_avg_gt (ints : List ℚ) (t : ℚ) (d k : Nat) (hd : 0 < d) :
    ((k * d, d) ∈ select ints t d ↔
      k < numGroups ints.length (d * 10) ∧
        t < groupAvg (groupSlice ints k (d * 10))) ∧
    (groupAvg (groupSlice ints k (d * 10)) = t → (k * d, d) ∉ select ints t d) := by
  have main : (k * d, d) ∈ select ints t d ↔
      k < numGroups ints.length (d * 10) ∧
        t < groupAvg (groupSlice ints k (d * 10)) := by
    rw [mem_select_iff]
    constructor
    · rintro ⟨k', hk', hc', hp⟩
      have hkd : k * d = k' * d := by
        have := congrArg Prod.fst hp
        simpa using this
      have hk'k : k = k' := Nat.eq_of_mul_eq_mul_right hd hkd
      subst hk'k
      exact ⟨hk', hc'⟩
    · rintro ⟨hk, hc⟩
      exact ⟨k, hk, hc, rfl⟩
  refine ⟨main, ?_⟩
  intro heq hmem
  have := (main.mp hmem).2
  rw [heq] at this
  exact lt_irrefl t this

/-- Witness for C1 at `ints = [10, 2]`, `t = 5`, `d = 1`, `k = 0`. -/
theorem select_emits_iff_avg_gt_witness :
    (((0 * 1, 1) ∈ select [10, 2] 5 1 ↔
      0 < numGroups (List.length ([10, 2] : List ℚ)) (1 * 10) ∧
        (5 : ℚ) < groupAvg (groupSlice [10, 2] 0 (1 * 10))) ∧
    (groupAvg (groupSlice [10, 2] 0 (1 * 10)) = 5 → (0 * 1, 1) ∉ select [10, 2] 5 1)) :=
  select_emits_iff_avg_gt [10, 2] 5 1 0 (by decide)

/-- C5: for every intensity sequence, threshold and positive clip duration,
the emitted segments have strictly increasing start times and their windows
`[start, start + duration)` are pairwise non-overlapping. -/
theorem select_sorted_nonoverlapping (ints : List ℚ) (t : ℚ) (d : Nat) (hd : 0 < d) :
    (select ints t d).Pairwise fun a b => a.1 < b.1 ∧ a.1 + a.2 ≤ b.1 := by
  unfold select
  rw [List.pairwise_filterMap]
  refine List.Pairwise.imp ?_ (List.pairwise_lt_range _)
  intro k k' hkk' b hb b' hb'
  rw [Option.mem_def] at hb hb'
  by_cases hc : t < groupAvg (groupSlice ints k (d * 10))
  · rw [if_pos hc] at hb
    by_cases hc' : t < groupAvg (groupSlice ints k' (d * 10))
    · rw [if_pos hc'] at hb'
      obtain rfl := Option.some.inj hb
      obtain rfl := Option.some.inj hb'
      have h1 : (k + 1) * d ≤ k' * d := Nat.mul_le_mul_right d hkk'
      have h2 : (k + 1) * d = k * d + d := by ring
      exact ⟨by omega, by simpa using (by omega : k * d + d ≤ k' * d)⟩
    · rw [if_neg hc'] at hb'
      cases hb'
  · rw [if_neg hc] at hb
    cases hb

/-- Witness for C5 at `ints = [10, 2]`, `t = 5`, `d = 1`. -/
theorem select_sorted_nonoverlapping_witness :
    (select [10, 2] 5 1).Pairwise fun a b => a.1 < b.1 ∧ a.1 + a.2 ≤ b.1 :=
  select_sorted_nonoverlapping [10, 2] 5 1 (by decide)

/-- C9: for every intensity sequence and `clip_duration ≥ 1`, every group the
Selector evaluates starts strictly inside the sequence (the loop index never
reaches the length) and its slice is non-empty, so the empty-mean case is
unreachable; on the empty intensity sequence no group is evaluated and no
segment is emitted. -/
theorem select_groups_nonempty (ints : List ℚ) (t : ℚ) (d : Nat) (hd : 1 ≤ d) :
    (∀ k, k < numGroups ints.length (d * 10) →
      k * (d * 10) < ints.length ∧ groupSlice ints k (d * 10) ≠ []) ∧
    (ints = [] → select ints t d = []) := by
  have hstep : 0 < d * 10 := by omega
  constructor
  · intro k hk
    have hlt : k * (d * 10) < ints.length := (lt_numGroups_iff hstep).mp hk
    refine ⟨hlt, ?_⟩
    intro hnil
    have hlen := groupSlice_length ints k (d * 10)
    rw [hnil] at hlen
    simp only [List.length_nil] at hlen
    omega
  · rintro rfl
    have h0 : numGroups (List.length ([] : List ℚ)) (d * 10) = 0 := by
      unfold numGroups
      simp only [List.length_nil, Nat.zero_add]
      exact Nat.div_eq_of_lt (by omega)
    unfold select
    rw [h0]
    rfl

/-- Witness for C9 at `ints = []`, `t = 0`, `d = 1`. -/
theorem select_groups_nonempty_witness :
    ((∀ k, k < numGroups (List.length ([] : List ℚ)) (1 * 10) →
      k * (1 * 10) < List.length ([] : List ℚ) ∧ groupSlice [] k (1 * 10) ≠ []) ∧
    (([] : List ℚ) = [] → select [] 0 1 = [])) :=
  select_groups_nonempty [] 0 1 (by decide)

/-- C6: when the sequence length is not an exact multiple of
`clip_duration * 10`, the last group's slice consists of exactly the
remaining entries (so its mean is the arithmetic mean of only those), there
are fewer than `clip_duration * 10` of them, and if that group is selected
the emitted segment still has duration `clip_duration`. -/
theorem select_trailing_group (ints : List ℚ) (t : ℚ) (d : Nat) (hd : 0 < d)
    (hmod : ¬ d * 10 ∣ ints.length) :
    groupSlice ints (numGroups ints.length (d * 10) - 1) (d * 10) =
        ints.drop ((numGroups ints.length (d * 10) - 1) * (d * 10)) ∧
    (groupSlice ints (numGroups ints.length (d * 10) - 1) (d * 10)).length < d * 10 ∧
    (t < groupAvg (groupSlice ints (numGroups ints.length (d * 10) - 1) (d * 10)) →
      ((numGroups ints.length (d * 10) - 1) * d, d) ∈ select ints t d) := by
  have hstep : 0 < d * 10 := by omega
  have hn : 0 < ints.length := by
    rcases Nat.eq_zero_or_pos ints.length with h0 | h
    · rw [h0] at hmod
      exact absurd (dvd_zero (d * 10)) hmod
    · exact h
  set K := numGroups ints.length (d * 10) with hK
  have hK1 : 0 < K := (lt_numGroups_iff hstep).mpr (by simpa using hn)
  have hlast : (K - 1) * (d * 10) < ints.length :=
    (lt_numGroups_iff hstep).mp (by omega)
  have hub : ints.length ≤ K * (d * 10) := by
    by_contra hcon
    push_neg at hcon
    exact absurd ((lt_numGroups_iff hstep).mpr hcon) (lt_irrefl K)
  have hne : ints.length ≠ K * (d * 10) := by
    intro h
    exact hmod ⟨K, by rw [h, Nat.mul_comm]⟩
  have hKmul : (K - 1) * (d * 10) + d * 10 = K * (d * 10) := by
    have h1 : K - 1 + 1 = K := Nat.succ_pred_eq_of_pos hK1
    calc (K - 1) * (d * 10) + d * 10 = (K - 1 + 1) * (d * 10) := by ring
      _ = K * (d * 10) := by rw [h1]
  have hrem : ints.length - (K - 1) * (d * 10) < d * 10 := by omega
  refine ⟨?_, ?_, ?_⟩
  · unfold groupSlice
    apply List.take_of_length_le
    rw [List.length_drop]
    omega
  · rw [groupSlice_length]
    omega
  · intro hc
    exact mem_select_iff.mpr ⟨K - 1, by omega, hc, rfl⟩

/-- Witness for C6 at `ints` of length 12, `t = 0`, `d = 1` (12 is not a
multiple of 10). -/
theorem select_trailing_group_witness :
    groupSlice (List.replicate 12 1) (numGroups (List.length (List.replicate 12 (1 : ℚ))) (1 * 10) - 1) (1 * 10) =
        (List.replicate 12 1).drop ((numGroups (List.length (List.replicate 12 (1 : ℚ))) (1 * 10) - 1) * (1 * 10)) ∧
    (groupSlice (List.replicate 12 1) (numGroups (List.length (List.replicate 12 (1 : ℚ))) (1 * 10) - 1) (1 * 10)).length < 1 * 10 ∧
    ((0 : ℚ) < groupAvg (groupSlice (List.replicate 12 1) (numGroups (List.length (List.replicate 12 (1 : ℚ))) (1 * 10) - 1) (1 * 10)) →
      ((numGroups (List.length (List.replicate 12 (1 : ℚ))) (1 * 10) - 1) * 1, 1) ∈ select (List.replicate 12 1) 0 1) :=
  select_trailing_group (List.replicate 12 1) 0 1 (by decide) (by decide)

/-- C10: the selection is antitone in the threshold: for thresholds
`t1 ≤ t2`, every segment emitted with threshold `t2` is also emitted with
threshold `t1`. -/
theorem select_threshold_antitone (ints : List ℚ) (d : Nat) (t1 t2 : ℚ)
    (ht : t1 ≤ t2) :
    ∀ seg ∈ select ints t2 d, seg ∈ select ints t1 d := by
  intro seg hseg
  rw [mem_select_iff] at hseg ⊢
  obtain ⟨k, hk, hc, rfl⟩ := hseg
  exact ⟨k, hk, lt_of_le_of_lt ht hc, rfl⟩

/-- Witness for C10 at `ints = [10, 2]`, `d = 1`, `t1 = 3`, `t2 = 5`. -/
theorem select_threshold_antitone_witness : (0 * 1, 1) ∈ select [10, 2] 3 1 :=
  select_threshold_antitone [10, 2] 1 3 5 (by norm_num) (0 * 1, 1)
    (mem_select_iff.mpr ⟨0, by decide, by norm_num [groupAvg, groupSlice], rfl⟩)

/-! ### Helper lemmas about the Analyzer -/

lemma meanSq_nonneg (c : List Int) : 0 ≤ meanSq c := by
  unfold meanSq
  apply div_nonneg
  · apply List.sum_nonneg
    intro x hx
    obtain ⟨y, _, rfl⟩ := List.mem_map.mp hx
    positivity
  · exact_mod_cast Nat.zero_le _

lemma meanSq_zero_of_all_zero {c : List Int} (h : ∀ y ∈ c, y = 0) :
    meanSq c = 0 := by
  unfold meanSq
  have hsum : (c.map fun (x : Int) => (x : ℚ) ^ 2).sum = 0 := by
    apply List.sum_eq_zero
    intro x hx
    obtain ⟨y, hy, rfl⟩ := List.mem_map.mp hx
    rw [h y hy]
    norm_num
  rw [hsum, zero_div]

lemma intensitiesOfChunks_cons (c : List Int) (cs : List (List Int)) :
    intensitiesOfChunks (c :: cs) =
      if c.length = 0 then intensitiesOfChunks cs
      else if meanSq c < 0 then intensitiesOfChunks cs
      else if rmsNaN (meanSq c) then intensitiesOfChunks cs
      else Real.sqrt (meanSq c) :: intensitiesOfChunks cs := rfl

lemma intensitiesOfChunks_cons_skip {c : List Int} (cs : List (List Int))
    (h : c.length = 0 ∨ meanSq c < 0 ∨ rmsNaN (meanSq c) = true) :
    intensitiesOfChunks (c :: cs) = intensitiesOfChunks cs := by
  rw [intensitiesOfChunks_cons]
  by_cases h1 : c.length = 0
  · rw [if_pos h1]
  · rw [if_neg h1]
    by_cases h2 : meanSq c < 0
    · rw [if_pos h2]
    · rw [if_neg h2]
      rcases h with h | h | h
      · exact absurd h h1
      · exact absurd h h2
      · rw [if_pos h]

lemma intensitiesOfChunks_cons_keep {c : List Int} (cs : List (List Int))
    (h : ¬ (c.length = 0 ∨ meanSq c < 0 ∨ rmsNaN (meanSq c) = true)) :
    intensitiesOfChunks (c :: cs) =
      Real.sqrt (meanSq c) :: intensitiesOfChunks cs := by
  obtain ⟨h1, h23⟩ := not_or.mp h
  obtain ⟨h2, h3⟩ := not_or.mp h23
  rw [intensitiesOfChunks_cons, if_neg h1, if_neg h2, if_neg h3]

lemma chunkIntensity_none {c : List Int}
    (h : c.length = 0 ∨ meanSq c < 0 ∨ rmsNaN (meanSq c) = true) :
    chunkIntensity c = none := by
  unfold chunkIntensity
  by_cases h1 : c.length = 0
  · rw [if_pos h1]
  · rw [if_neg h1]
    by_cases h2 : meanSq c < 0
    · rw [if_pos h2]
    · rw [if_neg h2]
      rcases h with h | h | h
      · exact absurd h h1
      · exact absurd h h2
      · rw [if_pos h]

lemma chunkIntensity_some {c : List Int}
    (h : ¬ (c.length = 0 ∨ meanSq c < 0 ∨ rmsNaN (meanSq c) = true)) :
    chunkIntensity c = some (Real.sqrt (meanSq c)) := by
  obtain ⟨h1, h23⟩ := not_or.mp h
  obtain ⟨h2, h3⟩ := not_or.mp h23
  unfold chunkIntensity
  rw [if_neg h1, if_neg h2, if_neg h3]

lemma intensitiesOfChunks_eq_filterMap (cs : List (List Int)) :
    intensitiesOfChunks cs = cs.filterMap chunkIntensity := by
  induction cs with
  | nil => rfl
  | cons c cs ih =>
      by_cases h : c.length = 0 ∨ meanSq c < 0 ∨ rmsNaN (meanSq c) = true
      · rw [intensitiesOfChunks_cons_skip cs h, List.filterMap_cons,
          chunkIntensity_none h, ih]
      · rw [intensitiesOfChunks_cons_keep cs h, List.filterMap_cons,
          chunkIntensity_some h, ih]

lemma intensitiesOfChunks_length_le (cs : List (List Int)) :
    (intensitiesOfChunks cs).length ≤ cs.length := by
  induction cs with
  | nil => simp [intensitiesOfChunks]
  | cons c cs ih =>
      by_cases h : c.length = 0 ∨ meanSq c < 0 ∨ rmsNaN (meanSq c) = true
      · rw [intensitiesOfChunks_cons_skip cs h]
        exact Nat.le_succ_of_le ih
      · rw [intensitiesOfChunks_cons_keep cs h]
        simpa using ih

lemma intensitiesOfChunks_length_eq_iff (cs : List (List Int)) :
    (intensitiesOfChunks cs).length = cs.length ↔
      ∀ c ∈ cs, ¬ (c.length = 0 ∨ meanSq c < 0 ∨ rmsNaN (meanSq c) = true) := by
  induction cs with
  | nil => simp [intensitiesOfChunks]
  | cons c cs ih =>
      by_cases h : c.length = 0 ∨ meanSq c < 0 ∨ rmsNaN (meanSq c) = true
      · rw [intensitiesOfChunks_cons_skip cs h]
        simp only [List.length_cons]
        constructor
        · intro hlen
          have := intensitiesOfChunks_length_le cs
          omega
        · intro hall
          exact absurd h (hall c (List.mem_cons_self c cs))
      · rw [intensitiesOfChunks_cons_keep cs h]
        simp only [List.length_cons, Nat.add_right_cancel_iff]
        rw [ih]
        constructor
        · intro hall c' hc'
          rcases List.mem_cons.mp hc' with rfl | hm
          · exact h
          · exact hall c' hm
        · intro hall c' hc'
          exact hall c' (List.mem_cons_of_mem _ hc')

lemma intensitiesOfChunks_all_kept (cs : List (List Int))
    (h : ∀ c ∈ cs, ¬ (c.length = 0 ∨ meanSq c < 0 ∨ rmsNaN (meanSq c) = true)) :
    intensitiesOfChunks cs = cs.map fun c => Real.sqrt (meanSq c) := by
  induction cs with
  | nil => rfl
  | cons c cs ih =>
      rw [intensitiesOfChunks_cons_keep cs (h c (List.mem_cons_self c cs)),
        List.map_cons, ih (fun c' hc' => h c' (List.mem_cons_of_mem _ hc'))]

lemma intensitiesOfChunks_nonneg (cs : List (List Int)) :
    ∀ x ∈ intensitiesOfChunks cs, 0 ≤ x := by
  induction cs with
  | nil => simp [intensitiesOfChunks]
  | cons c cs ih =>
      by_cases h : c.length = 0 ∨ meanSq c < 0 ∨ rmsNaN (meanSq c) = true
      · rw [intensitiesOfChunks_cons_skip cs h]
        exact ih
      · rw [intensitiesOfChunks_cons_keep cs h]
        intro x hx
        rcases List.mem_cons.mp hx with rfl | hm
        · exact Real.sqrt_nonneg _
        · exact ih x hm

lemma chunks_length (C : Nat) (s : List Int) :
    (chunks C s).length = (s.length + C - 1) / C := by
  simp [chunks]

lemma mem_chunks_kept {C : Nat} (hC : 0 < C) {s : List Int} {c : List Int}
    (hc : c ∈ chunks C s) :
    ¬ (c.length = 0 ∨ meanSq c < 0 ∨ rmsNaN (meanSq c) = true) := by
  simp only [chunks, List.mem_map, List.mem_range] at hc
  obtain ⟨k, hk, rfl⟩ := hc
  have hlt : k * C < s.length := (lt_numGroups_iff hC).mp hk
  rw [not_or, not_or]
  refine ⟨?_, ?_, ?_⟩
  · intro h0
    simp only [List.length_take, List.length_drop] at h0
    omega
  · exact not_lt.mpr (meanSq_nonneg _)
  · simp [rmsNaN]

/-! ### Audio Intensity Analyzer claims -/

/-- C2: for a stream of length `L` and a chunk of `C` samples the Analyzer
produces at most `ceil(L/C)` intensity values, with equality exactly when no
chunk of the stream is empty and none is dropped as invalid (negative mean
of squares or NaN RMS). -/
theorem analyzer_length_le_ceil (C : Nat) (s : List Int) (hC : 0 < C) :
    (get_audio_intensity C s).length ≤ (s.length + C - 1) / C ∧
    ((get_audio_intensity C s).length = (s.length + C - 1) / C ↔
      ∀ c ∈ chunks C s,
        ¬ (c.length = 0 ∨ meanSq c < 0 ∨ rmsNaN (meanSq c) = true)) := by
  have _ := hC
  unfold get_audio_intensity
  rw [← chunks_length C s]
  exact ⟨intensitiesOfChunks_length_le _, intensitiesOfChunks_length_eq_iff _⟩

/-- Witness for C2 at `C = 2`, `s = [1, 2, 3]`. -/
theorem analyzer_length_le_ceil_witness :
    (get_audio_intensity 2 [1, 2, 3]).length ≤
        (List.length ([1, 2, 3] : List Int) + 2 - 1) / 2 ∧
    ((get_audio_intensity 2 [1, 2, 3]).length =
        (List.length ([1, 2, 3] : List Int) + 2 - 1) / 2 ↔
      ∀ c ∈ chunks 2 [1, 2, 3],
        ¬ (c.length = 0 ∨ meanSq c < 0 ∨ rmsNaN (meanSq c) = true)) :=
  analyzer_length_le_ceil 2 [1, 2, 3] (by decide)

/-- C3: the Analyzer's output is positional: it has one value per chunk, in
chunk order, and the value at index `i` is the RMS of the chunk starting at
sample `i * C`, which is time `i × 100 ms` from stream start. -/
theorem analyzer_positional (C : Nat) (s : List Int) (hC : 0 < C) :
    get_audio_intensity C s =
      (List.range ((s.length + C - 1) / C)).map
        (fun i => Real.sqrt (meanSq ((s.drop (i * C)).take C))) := by
  unfold get_audio_intensity
  rw [intensitiesOfChunks_all_kept (chunks C s) (fun c hc => mem_chunks_kept hC hc)]
  unfold chunks
  rw [List.map_map]
  rfl

/-- Witness for C3 at `C = 2`, `s = [1, 2, 3]`. -/
theorem analyzer_positional_witness :
    get_audio_intensity 2 [1, 2, 3] =
      (List.range ((List.length ([1, 2, 3] : List Int) + 2 - 1) / 2)).map
        (fun i => Real.sqrt (meanSq ((([1, 2, 3] : List Int).drop (i * 2)).take 2))) :=
  analyzer_positional 2 [1, 2, 3] (by decide)

/-- C4: every entry of the Analyzer's output is non-negative, and a chunk
whose samples are all zero contributes the entry `0` exactly (its per-chunk
outcome is `some 0`, neither dropped nor replaced). -/
theorem analyzer_nonneg_and_zero_chunk (C : Nat) (s : List Int) (hC : 0 < C) :
    (∀ x ∈ get_audio_intensity C s, 0 ≤ x) ∧
    (∀ c ∈ chunks C s, (∀ y ∈ c, y = 0) → chunkIntensity c = some 0) := by
  constructor
  · intro x hx
    exact intensitiesOfChunks_nonneg (chunks C s) x hx
  · intro c hc hz
    have hkept := mem_chunks_kept hC hc
    rw [chunkIntensity_some hkept, meanSq_zero_of_all_zero hz, Rat.cast_zero,
      Real.sqrt_zero]

/-- Witness for C4 at `C = 1`, `s = [0]`. -/
theorem analyzer_nonneg_and_zero_chunk_witness :
    (∀ x ∈ get_audio_intensity 1 [0], 0 ≤ x) ∧
    (∀ c ∈ chunks 1 [0], (∀ y ∈ c, y = 0) → chunkIntensity c = some 0) :=
  analyzer_nonneg_and_zero_chunk 1 [0] (by decide)

/-- C7: the Analyzer is a total function producing a finite list: every
chunk's outcome is an `Option` and every anomalous chunk (empty, negative
mean of squares, or NaN RMS) is absorbed by omission (`none`), never by an
error. -/
theorem analyzer_total_absorbs (C : Nat) (s : List Int) :
    get_audio_intensity C s = (chunks C s).filterMap chunkIntensity :=
  intensitiesOfChunks_eq_filterMap (chunks C s)

/-! ### Equivalence of the two pipeline variants -/

lemma intensitiesOfChunks_eq_v1 (cs : List (List Int)) :
    intensitiesOfChunks cs = intensitiesOfChunks_v1 cs := by
  induction cs with
  | nil => rfl
  | cons c cs ih =>
      unfold intensitiesOfChunks intensitiesOfChunks_v1
      rw [show meanSq_v1 = meanSq from rfl, show rmsNaN_v1 = rmsNaN from rfl, ih]

/-- C8: the cores of the two variants are extensionally equal: both
Analyzers produce the same intensity sequence on every stream, and both
selection loops emit the same segments on every intensity sequence,
threshold and clip duration. -/
theorem variants_core_equal :
    (∀ (C : Nat) (s : List Int),
      get_audio_intensity C s = get_audio_intensity_v1 C s) ∧
    (∀ (ints : List ℚ) (t : ℚ) (d : Nat), select ints t d = select_v1 ints t d) := by
  constructor
  · intro C s
    unfold get_audio_intensity get_audio_intensity_v1 chunks
    exact intensitiesOfChunks_eq_v1 _
  · intro ints t d
    unfold select select_v1 numGroups groupAvg
    rfl

end EVEOai
